import Mathlib

/-!
Shallow embedding of `src/epub-shrink.py` (epub-shrink): an EPUB image
recompression tool.  Python functions are translated into executable Lean
definitions; Python floats are modelled as exact rationals (`ℚ`); Python
exceptions are modelled as `Except`/`Option` results; external-library calls
(PIL image decode/encode, the MIME table of `mimetypes.guess_type`) are either
parameters of the embedding or modelled after the library's documented
algorithm, as noted at each definition.
-/

namespace EpubShrink

/-- Raw entry content: a byte string, modelled as a list of naturals. -/
abbrev Bytes := List Nat

/-- The option record produced by `parse_arguments` after `main` has replaced
`image_resize_percent` by `adjust_image_resize_percent`'s result
(`src/epub-shrink.py:176-181`).  `image_resize_percent = none` covers both the
absent option and the falsy value `0`/`None`; a present value is the fraction
`percent / 100.0` as an exact rational.  `image_resize_maxwidth = none` covers
the absent option; the code's truthiness test also skips the value `0`. -/
structure Args where
  jpeg_quality : Int := 75
  image_resize_percent : Option ℚ := none
  image_resize_resample : Option String := none
  image_resize_maxwidth : Option Nat := none
  grayscale : Bool := false

/-! ### IEEE-754 binary64 ("float64") arithmetic

CPython computes `percent / 100.0` and `dimension * resize_percent` in
float64, and that rounding is observable: `int(100 * (58 / 100.0)) == 57`,
not 58.  A float64 value is modelled as the exact rational it denotes, and
each operation as the exact result rounded to 53 significant bits, round to
nearest with ties to even.  Overflow and subnormals are out of the ranges
this program ever touches and are not modelled. -/

/-- Round half to even: the integer nearest `x`, ties going to the even
integer. -/
def rhe (x : ℚ) : Int :=
  let fl_ := ⌊x⌋
  if x - fl_ < 1/2 then fl_
  else if 1/2 < x - fl_ then fl_ + 1
  else if fl_ % 2 = 0 then fl_ else fl_ + 1

/-- `⌊log₂ q⌋` for a positive rational, computed from the bit lengths of the
numerator and denominator. -/
def qlog2 (q : ℚ) : Int :=
  let a := q.num.toNat
  let b := q.den
  if a * 2 ^ Nat.log2 b < b * 2 ^ Nat.log2 a
  then (Nat.log2 a : Int) - Nat.log2 b - 1
  else (Nat.log2 a : Int) - Nat.log2 b

/-- Round a positive rational to the nearest binary64 value: scale into the
53-bit mantissa range `[2^52, 2^53)`, round half to even, scale back. -/
def flPos (q : ℚ) : ℚ :=
  (rhe (q * 2 ^ (52 - qlog2 q)) : ℚ) * 2 ^ (qlog2 q - 52)

/-- Binary64 rounding of an exact rational (round to nearest, ties to
even). -/
def fl (q : ℚ) : ℚ :=
  if q = 0 then 0 else if q < 0 then -flPos (-q) else flPos q

/-- Float64 multiplication: the exact product, rounded. -/
def fmul (x y : ℚ) : ℚ := fl (x * y)

/-- Float64 true division: the exact quotient, rounded. -/
def fdiv (x y : ℚ) : ℚ := fl (x / y)

/-- `adjust_image_resize_percent` (`src/epub-shrink.py:41-42`):
`return percent / 100.0 if percent else None`.  `percent / 100.0` is float64
division (the int `percent` converts to float64 exactly at these
magnitudes). -/
def adjust_image_resize_percent (percent : Int) : Option ℚ :=
  if percent ≠ 0 then some (fdiv (percent : ℚ) 100) else none

/-- Python `str.startswith`, on the character lists of the strings. -/
def startswith (s pre : String) : Bool := pre.data.isPrefixOf s.data

/-- Python `str.endswith`, on the character lists of the strings. -/
def endswith (s suf : String) : Bool := suf.data.isSuffixOf s.data

/-- The subtype extracted by `_, subtype = mime_type.split('/')`
(`src/epub-shrink.py:53`): the text after the (single) slash of a MIME type,
split on the characters. -/
def mime_subtype (mime : String) : String :=
  String.mk ((mime.data.splitOn '/').getD 1 [])

/-- Keyword arguments passed to `Image.save`: `optimize` always, `quality`
only for JPEG. -/
structure SaveParams where
  optimize : Bool
  quality : Option Int
deriving DecidableEq

/-- `determine_image_format_and_params` (`src/epub-shrink.py:90-95`).  The
Python function falls off the end (returns `None`) for any subtype outside
jpeg/jpg/png; this is the `none` case. -/
def determine_image_format_and_params (subtype : String) (args : Args) :
    Option (String × SaveParams) :=
  if subtype = "jpeg" ∨ subtype = "jpg" then
    some ("JPEG", ⟨true, some args.jpeg_quality⟩)
  else if subtype = "png" then
    some ("PNG", ⟨true, none⟩)
  else
    none

/-- `compress_and_resize_image` (`src/epub-shrink.py:65-82`) at the byte
level.  The imaging work between `Image.open` and `save_image_to_buffer`
(decode, resize, grayscale, re-encode) is delegated to the external PIL
library; it is abstracted here as the parameter `pipeline`, applied to the
input bytes together with the format and save parameters chosen by
`determine_image_format_and_params`.  The early return for subtypes outside
jpeg/jpg/png returns the input bytes unchanged before any imaging happens.
`none` models the `TypeError` that unpacking
`format_, params = determine_image_format_and_params(...)` would raise if that
call returned `None`. -/
def compress_and_resize_image
    (pipeline : Bytes → String → SaveParams → Bytes)
    (content : Bytes) (subtype : String) (args : Args) : Option Bytes :=
  if ¬ (subtype = "jpeg" ∨ subtype = "jpg" ∨ subtype = "png") then
    some content
  else
    match determine_image_format_and_params subtype args with
    | some (format_, params) => some (pipeline content format_ params)
    | none => none

/-- The per-entry body of the loop in `process_epub_files`
(`src/epub-shrink.py:48-55`): guess the MIME type from the entry name, and
route the bytes through `compress_and_resize_image` exactly when the type is
present and starts with `image/`.  `mimetypes.guess_type` consults an
environment-dependent table (the stdlib map plus system MIME files), so it is
a parameter `guess` of the embedding. -/
def process_entry (guess : String → Option String)
    (pipeline : Bytes → String → SaveParams → Bytes)
    (args : Args) (item : String) (content : Bytes) : Option Bytes :=
  match guess item with
  | some mime_type =>
      if startswith mime_type "image/" then
        compress_and_resize_image pipeline content (mime_subtype mime_type) args
      else some content
  | none => some content

/-- `process_epub_files` (`src/epub-shrink.py:44-63`) restricted to the
archive contents: the source archive is the ordered list of its entries
(name, raw bytes); the destination archive receives, in the same order and
under the same name (`out_book.writestr(item, content)`), the possibly
transformed bytes of each entry.  `none` propagates a raised exception. -/
def process_epub_files (guess : String → Option String)
    (pipeline : Bytes → String → SaveParams → Bytes)
    (args : Args) (entries : List (String × Bytes)) :
    Option (List (String × Bytes)) :=
  entries.mapM (fun e =>
    (process_entry guess pipeline args e.1 e.2).map (fun c => (e.1, c)))

/-! ### Path validation (`validate_file_paths`, `main`) -/

/-- The last index of character `c` in `cs`, or `-1` when absent: Python's
`str.rfind`. -/
def rfind (cs : List Char) (c : Char) : Int :=
  match (cs.reverse).findIdx? (fun x => x = c) with
  | some i => (cs.length : Int) - 1 - i
  | none => -1

/-- `os.path.basename` for POSIX paths: everything after the last `/`. -/
def basename (p : String) : String :=
  String.mk (p.toList.drop (rfind p.toList '/' + 1).toNat)

/-- `os.path.join` for POSIX paths, two arguments
(CPython `posixpath.join`). -/
def joinPath (a b : String) : String :=
  if startswith b "/" then b
  else if a = "" ∨ endswith a "/" then a ++ b
  else a ++ "/" ++ b

/-- The filesystem facts `validate_file_paths` queries: `os.path.isfile` and
`os.path.isdir`, abstracted as decidable predicates on paths. -/
structure FS where
  isfile : String → Bool
  isdir : String → Bool

/-- The exceptions raised by `validate_file_paths`. -/
inductive PathError where
  | fileNotFound (path : String)
  | fileExists (path : String)
deriving DecidableEq

/-- `validate_file_paths` (`src/epub-shrink.py:32-39`), with raised exceptions
as `Except.error`.  Note the order of the checks: an existing-directory
`out_path` returns `join(out_path, basename(in_path))` at once, before the
`out_path == in_path` comparison is ever reached. -/
def validate_file_paths (fs : FS) (in_path out_path : String) :
    Except PathError String :=
  if ¬ fs.isfile in_path then .error (.fileNotFound in_path)
  else if fs.isdir out_path then .ok (joinPath out_path (basename in_path))
  else if out_path = in_path then .error (.fileExists out_path)
  else .ok out_path

/-- `main` (`src/epub-shrink.py:176-183`) restricted to what it does with the
archive: `validate_file_paths` runs first, and only when it returns normally
does `process_epub_files` open and write the destination archive.  An
`Except.error` result therefore carries no destination contents at all: no
write has occurred. -/
def main_model (fs : FS) (guess : String → Option String)
    (pipeline : Bytes → String → SaveParams → Bytes)
    (in_path out_path : String) (raw_percent : Option Int)
    (args : Args) (archive : List (String × Bytes)) :
    Except PathError (Option (List (String × Bytes))) :=
  match validate_file_paths fs in_path out_path with
  | .error e => .error e
  | .ok _resolved =>
      let args' := { args with image_resize_percent :=
        match raw_percent with
        | some n => if n ≠ 0 then adjust_image_resize_percent n else args.image_resize_percent
        | none => args.image_resize_percent }
      .ok (process_epub_files guess pipeline args' archive)

/-! ### Image dimensions (`resize_image` and the max-width clamp)

The byte-level imaging is external, but the repository's own code decides the
*dimensions*: `resize_image` computes the new size passed to `PIL.Image.resize`
(which produces an image of exactly the requested size), and the max-width
branch of `compress_and_resize_image` computes the bounding box passed to
`PIL.Image.thumbnail`.  `thumbnail` chooses the final size itself; its
documented size computation (Pillow, `Image.thumbnail` /
`preserve_aspect_ratio`) is embedded below in exact rational arithmetic.
Python's `int()` truncates toward zero, which on the non-negative values
arising here coincides with `Nat.floor`. -/

/-- `resize_image` (`src/epub-shrink.py:84-88`), dimension part:
`new_size = [int(dimension * resize_percent) for dimension in img.size]`,
followed by `img.resize(new_size, resample)` which yields exactly `new_size`.
The multiplication is float64 (`fmul`); `int()` truncates toward zero, which
on the non-negative values arising here is `Nat.floor`.  The resample method
does not affect dimensions. -/
def resize_image (size : Nat × Nat) (resize_percent : ℚ) : Nat × Nat :=
  (⌊fmul (size.1 : ℚ) resize_percent⌋₊, ⌊fmul (size.2 : ℚ) resize_percent⌋₊)

/-- Pillow's `round_aspect(number, key)` helper inside `Image.thumbnail`:
`max(min(math.floor(number), math.ceil(number), key=key), 1)`.  Python's
two-argument `min` with a key returns the first argument on ties. -/
def round_aspect (number : ℚ) (key : Nat → ℚ) : Nat :=
  max (if key ⌊number⌋₊ ≤ key ⌈number⌉₊ then ⌊number⌋₊ else ⌈number⌉₊) 1

/-- The size selected by Pillow's `Image.thumbnail` for an image of size
`(w, h)` given the bounding box `(x, y)`: no change when the box already
contains the image, otherwise the aspect ratio `w / h` is preserved and the
non-binding box dimension is recomputed by `round_aspect`.  The divisions
inside Pillow are float64; exact rational arithmetic stands in for them
here, and every instance the theorems below evaluate is far from a branch
or rounding boundary, so the float64 and exact computations agree there. -/
def pil_thumbnail_size (w h x y : Nat) : Nat × Nat :=
  if x ≥ w ∧ y ≥ h then (w, h)
  else
    let aspect : ℚ := (w : ℚ) / (h : ℚ)
    if (x : ℚ) / (y : ℚ) ≥ aspect then
      (round_aspect ((y : ℚ) * aspect) (fun n => |aspect - (n : ℚ) / (y : ℚ)|), y)
    else
      (x, round_aspect ((x : ℚ) / aspect)
            (fun n => if n = 0 then 0 else |aspect - (x : ℚ) / (n : ℚ)|))

/-- The max-width branch of `compress_and_resize_image`
(`src/epub-shrink.py:72-77`): when the current width exceeds the configured
maximum, compute `ratio = maxwidth / width` (float64 division),
`new_height = int(height * ratio)` (float64 multiplication, truncated) and
call `img.thumbnail((maxwidth, new_height), Image.LANCZOS)`; otherwise the
image is untouched. -/
def apply_maxwidth (size : Nat × Nat) (maxwidth : Nat) : Nat × Nat :=
  let width := size.1
  let height := size.2
  if width > maxwidth then
    let ratio : ℚ := fdiv (maxwidth : ℚ) (width : ℚ)
    let new_height := ⌊fmul (height : ℚ) ratio⌋₊
    pil_thumbnail_size width height maxwidth new_height
  else size

/-- The dimension effect of `compress_and_resize_image`
(`src/epub-shrink.py:69-77`) on a decoded image of size `size`:
the percentage resize runs first when `args.image_resize_percent` is truthy
(present and non-zero), then the max-width clamp when
`args.image_resize_maxwidth` is truthy.  Grayscale conversion and re-encoding
do not change dimensions. -/
def image_dims_pipeline (args : Args) (size : Nat × Nat) : Nat × Nat :=
  let size1 := match args.image_resize_percent with
    | some p => if p ≠ 0 then resize_image size p else size
    | none => size
  match args.image_resize_maxwidth with
  | some maxwidth => if maxwidth ≠ 0 then apply_maxwidth size1 maxwidth else size1
  | none => size1

/-! ### Report aggregation (`report_file_sizes`, `src/epub-shrink.py:115-162`)

The DataFrame built by `process_epub_files` is a list of
(filename, in_size, out_size) records; `report_file_sizes` derives a
`filetype` column, groups by it, sums sizes, computes per-group and total
percentage deltas, and renders them.  pandas column arithmetic is float64:
division never raises, a zero denominator yields `±inf` or `NaN`.  Finite
quotients are modelled as exact rationals. -/

/-- One row of the DataFrame built in `process_epub_files`
(`src/epub-shrink.py:56-62`): entry filename and the archive-reported
compressed sizes in the source and destination archives. -/
structure SizeRecord where
  filename : String
  in_size : Nat
  out_size : Nat
deriving DecidableEq

/-- CPython `posixpath.splitext(p)[1]` on the characters of `p`: the extension
including its leading dot.  Faithful to the stdlib `genericpath._splitext`:
the extension starts at the last `.` provided that dot comes after the last
`/` and at least one earlier character of the final path component is not a
dot (leading dots of a hidden file never start an extension). -/
def splitext_ext_chars (cs : List Char) : List Char :=
  let sepIndex := rfind cs '/'
  let dotIndex := rfind cs '.'
  if sepIndex < dotIndex then
    if ((cs.drop (sepIndex + 1).toNat).take (dotIndex - (sepIndex + 1)).toNat).any
        (fun c => c ≠ '.') then
      cs.drop dotIndex.toNat
    else []
  else []

/-- `df['filename'].apply(lambda x: os.path.splitext(x)[1][1:])`
(`src/epub-shrink.py:116`): the group key; `[1:]` drops the extension's dot. -/
def filetype (filename : String) : String :=
  String.mk ((splitext_ext_chars filename.toList).drop 1)

/-- Modelled from the spec's words, for comparison with `filetype` (claim C8):
"the text after the last `.`, with case preserved as-is, and the empty string
when the filename contains no `.`". -/
def claimed_filetype (filename : String) : String :=
  let cs := filename.toList
  let dotIndex := rfind cs '.'
  if 0 ≤ dotIndex then String.mk (cs.drop (dotIndex + 1).toNat) else ""

/-- The value held by a float64 cell: a finite value (exact rational here),
one of the infinities, or NaN. -/
inductive PFloat where
  | finite (q : ℚ)
  | posInf
  | negInf
  | nan
deriving DecidableEq

/-- The column arithmetic `(size_diff / in_size) * 100`
(`src/epub-shrink.py:120`) in float64 semantics: division by zero yields
`±inf` for a non-zero numerator and `NaN` for `0/0`, and never raises;
multiplying the special values by 100 preserves them.  Finite quotients are
modelled exactly (float64 rounding is far below the two decimals ever
rendered for the integer-derived sizes at hand). -/
def percent_diff_val (in_sum : Nat) (size_diff : Int) : PFloat :=
  if in_sum = 0 then
    if 0 < size_diff then .posInf
    else if size_diff < 0 then .negInf
    else .nan
  else .finite ((size_diff : ℚ) / (in_sum : ℚ) * 100)

/-- One row of `totals_per_filetype` (`src/epub-shrink.py:117-120`): group
key, summed sizes, their difference, and the percentage delta. -/
structure TotalsRow where
  filetype : String
  in_size : Nat
  out_size : Nat
  size_diff : Int
  percent_diff : PFloat
deriving DecidableEq

/-- The row `totals_per_filetype` computes for one group key: sizes summed
over the records whose `filetype` equals the key
(`df.groupby('filetype')[['in_size', 'out_size']].sum()`), then
`size_diff = out_size - in_size` and
`percent_diff = (size_diff / in_size) * 100`. -/
def totals_for (records : List SizeRecord) (ft : String) : TotalsRow :=
  let group := records.filter (fun r => filetype r.filename = ft)
  let in_sum := (group.map (fun r => r.in_size)).sum
  let out_sum := (group.map (fun r => r.out_size)).sum
  { filetype := ft, in_size := in_sum, out_size := out_sum,
    size_diff := (out_sum : Int) - (in_sum : Int),
    percent_diff := percent_diff_val in_sum ((out_sum : Int) - (in_sum : Int)) }

/-- Lexicographic order on strings via their character lists: the order
pandas uses when sorting string group keys (`groupby(...)` sorts keys
ascending by default). -/
def str_le (a b : String) : Prop := a.data < b.data ∨ a.data = b.data

instance : DecidableRel str_le := fun a b => by
  unfold str_le; infer_instance

/-- The distinct values of the `filetype` column, in the ascending order
`groupby` gives them. -/
def group_keys (records : List SizeRecord) : List String :=
  List.insertionSort str_le ((records.map (fun r => filetype r.filename)).dedup)

/-- `totals_per_filetype` (`src/epub-shrink.py:117-120`): one `TotalsRow` per
distinct `filetype`, keys in `groupby` order. -/
def totals_per_filetype (records : List SizeRecord) : List TotalsRow :=
  (group_keys records).map (totals_for records)

/-- Comparison used when sorting rows by `percent_diff` ascending
(`sort_values`, `src/epub-shrink.py:121`): `-inf` below finite values below
`+inf`, with `NaN` placed last (`na_position='last'`, the pandas default). -/
def pfloat_le (a b : PFloat) : Bool :=
  match a, b with
  | .finite p, .finite q => p ≤ q
  | .negInf, _ => true
  | _, .nan => true
  | .nan, _ => false
  | _, .negInf => false
  | .posInf, .posInf => true
  | .posInf, .finite _ => false
  | .finite _, .posInf => true

/-- `totals_per_filetype_sorted` (`src/epub-shrink.py:121`): the rows sorted
ascending by `percent_diff` (largest reduction first). -/
def totals_per_filetype_sorted (records : List SizeRecord) : List TotalsRow :=
  List.insertionSort (fun a b => pfloat_le a.percent_diff b.percent_diff = true)
    (totals_per_filetype records)

/-- Round to the nearest integer number of hundredths, ties to even: the
rounding CPython's `"%.2f"` / `f"{v:.2f}"` formatting applies.  (CPython
rounds the binary float64 nearest to the exact value; for the quotients of
the small integers in the claims the two coincide, and none falls on a
tie.) -/
def roundHalfEven2 (q : ℚ) : Int :=
  let s := q * 100
  let fl := ⌊s⌋
  if s - fl < 1/2 then fl
  else if 1/2 < s - fl then fl + 1
  else if fl % 2 = 0 then fl else fl + 1

/-- Render `n` hundredths as a fixed-point decimal with two digits after the
point, with a leading minus sign for negative values. -/
def fmtHundredths (n : Int) : String :=
  (if n < 0 then "-" else "") ++ toString (n.natAbs / 100) ++ "." ++
    (if n.natAbs % 100 < 10 then "0" else "") ++ toString (n.natAbs % 100)

/-- `f"{v:.2f}"` for a finite float value. -/
def formatFixed2 (q : ℚ) : String :=
  fmtHundredths (roundHalfEven2 q)

/-- The cell `f"{row['percent_diff']:.2f}%"` (`src/epub-shrink.py:148`):
CPython renders the special float values as `inf`, `-inf` and `nan` under
`.2f` formatting. -/
def render_percent : PFloat → String
  | .finite q => formatFixed2 q ++ "%"
  | .posInf => "inf%"
  | .negInf => "-inf%"
  | .nan => "nan%"

/-- The per-group "Percent Diff" cells of the rendered table, in row order
(`src/epub-shrink.py:142-149`). -/
def table_percent_cells (records : List SizeRecord) : List String :=
  (totals_per_filetype_sorted records).map (fun row => render_percent row.percent_diff)

/-- `total_percentage` (`src/epub-shrink.py:153`):
`totals_per_filetype_sorted['size_diff'].sum() /
totals_per_filetype_sorted['in_size'].sum() * 100`, recomputed from the
summed columns, with the same float64 division semantics. -/
def total_percentage (records : List SizeRecord) : PFloat :=
  let rows := totals_per_filetype_sorted records
  percent_diff_val ((rows.map (fun r => r.in_size)).sum)
    ((rows.map (fun r => r.size_diff)).sum)

/-- `formatted_total_percentage` (`src/epub-shrink.py:154`). -/
def formatted_total_percentage (records : List SizeRecord) : String :=
  render_percent (total_percentage records)

/-! ## Helper lemmas -/

/-- `compress_and_resize_image` always returns bytes: for jpeg/jpg/png the
format lookup succeeds, and every other subtype takes the early
passthrough. -/
lemma compress_and_resize_image_isSome
    (pipeline : Bytes → String → SaveParams → Bytes)
    (content : Bytes) (subtype : String) (args : Args) :
    (compress_and_resize_image pipeline content subtype args).isSome = true := by
  unfold compress_and_resize_image determine_image_format_and_params
  by_cases h : subtype = "jpeg" ∨ subtype = "jpg" ∨ subtype = "png"
  · rcases h with h | h | h <;> simp [h]
  · simp [h]

/-- `process_entry` always returns bytes, and those bytes can differ from the
input only when the guessed MIME type is an `image/` type with subtype
jpeg/jpg/png. -/
lemma process_entry_eq (guess : String → Option String)
    (pipeline : Bytes → String → SaveParams → Bytes)
    (args : Args) (item : String) (content : Bytes) :
    ∃ c, process_entry guess pipeline args item content = some c ∧
      (c ≠ content → ∃ mime_type, guess item = some mime_type ∧
        startswith mime_type "image/" = true ∧
        (mime_subtype mime_type = "jpeg" ∨ mime_subtype mime_type = "jpg" ∨
         mime_subtype mime_type = "png")) := by
  unfold process_entry
  cases hg : guess item with
  | none => exact ⟨content, rfl, fun hc => absurd rfl hc⟩
  | some mime_type =>
    by_cases hs : startswith mime_type "image/"
    · by_cases hsub : mime_subtype mime_type = "jpeg" ∨ mime_subtype mime_type = "jpg" ∨
          mime_subtype mime_type = "png"
      · have hd : (determine_image_format_and_params (mime_subtype mime_type) args).isSome
            = true := by
          unfold determine_image_format_and_params
          rcases hsub with h | h | h <;> simp [h]
        obtain ⟨pair, hpair⟩ := Option.isSome_iff_exists.mp hd
        refine ⟨pipeline content pair.1 pair.2, ?_, fun _ => ⟨mime_type, rfl, hs, hsub⟩⟩
        simp only [hs, if_true]
        unfold compress_and_resize_image
        rw [if_neg (not_not_intro hsub), hpair]
      · refine ⟨content, ?_, fun hc => absurd rfl hc⟩
        simp only [hs, if_true]
        unfold compress_and_resize_image
        rw [if_pos (by simpa using hsub)]
    · exact ⟨content, by simp [hs], fun hc => absurd rfl hc⟩

/-! ## Claims -/

/-- C1: an archive entry whose name-inferred MIME type is absent or not an
`image/` type, and an image entry whose subtype is not jpeg/jpg/png, has its
bytes written to the destination archive exactly equal to the source bytes. -/
theorem passthrough_of_not_jpeg_png_image (guess : String → Option String)
    (pipeline : Bytes → String → SaveParams → Bytes)
    (args : Args) (item : String) (content : Bytes)
    (h : ∀ mime_type, guess item = some mime_type →
      startswith mime_type "image/" = true →
      ¬ (mime_subtype mime_type = "jpeg" ∨ mime_subtype mime_type = "jpg" ∨
         mime_subtype mime_type = "png")) :
    process_entry guess pipeline args item content = some content := by
  unfold process_entry
  cases hg : guess item with
  | none => rfl
  | some mime_type =>
    by_cases hs : startswith mime_type "image/"
    · have hn := h mime_type hg hs
      simp only [hs, if_true]
      unfold compress_and_resize_image
      rw [if_pos (by simpa using hn)]
    · simp [hs]

/-- C1 witness: a GIF entry (image type, subtype outside jpeg/jpg/png) passes
through unchanged. -/
theorem passthrough_of_not_jpeg_png_image_witness :
    process_entry (fun _ => some "image/gif") (fun c _ _ => c) {} "cover.gif"
      [1, 2, 3] = some [1, 2, 3] :=
  passthrough_of_not_jpeg_png_image (fun _ => some "image/gif") (fun c _ _ => c)
    {} "cover.gif" [1, 2, 3] (by
      intro mime_type hm hs
      injection hm with h
      subst h
      decide)

/-- C2: the destination archive holds exactly the source's entry names in the
source's order, and an entry's content can differ from the source only for
entries whose guessed MIME type is `image/` with subtype jpeg/jpg/png. -/
theorem entry_names_and_order_preserved (guess : String → Option String)
    (pipeline : Bytes → String → SaveParams → Bytes)
    (args : Args) (entries : List (String × Bytes)) :
    ∃ out, process_epub_files guess pipeline args entries = some out ∧
      out.map Prod.fst = entries.map Prod.fst ∧
      List.Forall₂ (fun (e o : String × Bytes) =>
        o.1 = e.1 ∧ (o.2 ≠ e.2 → ∃ mime_type, guess e.1 = some mime_type ∧
          startswith mime_type "image/" = true ∧
          (mime_subtype mime_type = "jpeg" ∨ mime_subtype mime_type = "jpg" ∨
           mime_subtype mime_type = "png"))) entries out := by
  induction entries with
  | nil => exact ⟨[], rfl, rfl, List.Forall₂.nil⟩
  | cons e rest ih =>
    obtain ⟨out, hout, hmap, hfa⟩ := ih
    obtain ⟨c, hc, hprop⟩ := process_entry_eq guess pipeline args e.1 e.2
    refine ⟨(e.1, c) :: out, ?_, ?_, ?_⟩
    · unfold process_epub_files at hout ⊢
      simp only [List.mapM_cons, hc, hout, Option.map_some, Option.bind_some,
        Option.pure_def]
      rfl
    · simpa using hmap
    · exact List.Forall₂.cons ⟨rfl, hprop⟩ hfa

/-- C10: `determine_image_format_and_params` returns a (format, params) pair
exactly for the subtypes jpeg/jpg/png and `None` otherwise, and since
`compress_and_resize_image` reaches the call only under that precondition
(the early return covers everything else), the unpacking into
`format_, params` never fails: the function is total. -/
theorem determine_format_none_unreachable :
    (∀ subtype args, (determine_image_format_and_params subtype args).isSome = true ↔
      (subtype = "jpeg" ∨ subtype = "jpg" ∨ subtype = "png")) ∧
    (∀ pipeline content subtype args,
      (compress_and_resize_image pipeline content subtype args).isSome = true) := by
  constructor
  · intro s a
    unfold determine_image_format_and_params
    split_ifs with h1 h2
    · simp only [Option.isSome_some, true_iff]
      tauto
    · simp only [Option.isSome_some, true_iff]
      tauto
    · simp only [Option.isSome_none, Bool.false_eq_true, false_iff]
      tauto
  · exact fun pipeline content subtype args =>
      compress_and_resize_image_isSome pipeline content subtype args

/-- C3: with destination path equal to the source path (the source being a
regular file, hence not a directory), `validate_file_paths` raises
`FileExistsError`; `main` runs this check before `process_epub_files`, so the
run ends in that error with no destination archive ever opened or written —
the source file is untouched. -/
theorem dest_eq_source_raises_before_write
    (fs : FS) (guess : String → Option String)
    (pipeline : Bytes → String → SaveParams → Bytes)
    (in_path : String) (raw_percent : Option Int) (args : Args)
    (archive : List (String × Bytes))
    (hfile : fs.isfile in_path = true) (hdir : fs.isdir in_path = false) :
    validate_file_paths fs in_path in_path = .error (.fileExists in_path) ∧
    main_model fs guess pipeline in_path in_path raw_percent args archive =
      .error (.fileExists in_path) := by
  have hv : validate_file_paths fs in_path in_path = .error (.fileExists in_path) := by
    unfold validate_file_paths
    simp [hfile, hdir]
  refine ⟨hv, ?_⟩
  unfold main_model
  rw [hv]

/-- C3 witness: a concrete one-file filesystem where source and destination
paths coincide. -/
theorem dest_eq_source_raises_before_write_witness :
    main_model ⟨fun p => p == "book.epub", fun _ => false⟩ (fun _ => none)
      (fun c _ _ => c) "book.epub" "book.epub" none {} [] =
      .error (.fileExists "book.epub") :=
  (dest_eq_source_raises_before_write ⟨fun p => p == "book.epub", fun _ => false⟩
    (fun _ => none) (fun c _ _ => c) "book.epub" none {} [] (by decide) rfl).2

/-- C9: when the destination argument names an existing directory,
`validate_file_paths` returns it joined with the input's base filename at
once, never comparing that result with the input path; in particular the
directory containing the input resolves to the input path itself with no
`FileExistsError`. -/
theorem dir_dest_bypasses_same_path_guard :
    (∀ (fs : FS) (in_path out_path : String), fs.isfile in_path = true →
      fs.isdir out_path = true →
      validate_file_paths fs in_path out_path =
        .ok (joinPath out_path (basename in_path))) ∧
    validate_file_paths ⟨fun p => p == "books/x.epub", fun p => p == "books"⟩
      "books/x.epub" "books" = .ok "books/x.epub" := by
  constructor
  · intro fs i o hf hd
    unfold validate_file_paths
    simp [hf, hd]
  · unfold validate_file_paths joinPath basename
    rfl

/-- C9 witness: the general branch applied to a concrete filesystem. -/
theorem dir_dest_bypasses_same_path_guard_witness :
    validate_file_paths ⟨fun p => p == "in.epub", fun p => p == "d"⟩ "in.epub" "d" =
      .ok (joinPath "d" (basename "in.epub")) :=
  dir_dest_bypasses_same_path_guard.1
    ⟨fun p => p == "in.epub", fun p => p == "d"⟩ "in.epub" "d" (by decide) (by decide)

/-- Rounding an integer changes nothing. -/
lemma rhe_intCast (z : Int) : rhe (z : ℚ) = z := by
  simp only [rhe, Int.floor_intCast]
  rw [if_pos (by norm_num)]

/-- `rhe` at a value whose fractional part is below one half rounds down. -/
lemma rhe_eq_floor (x : ℚ) (z : Int) (h1 : (z : ℚ) ≤ x) (h2 : x - z < 1/2) :
    rhe x = z := by
  have hfl : ⌊x⌋ = z := by
    rw [Int.floor_eq_iff]
    exact ⟨h1, by linarith⟩
  simp only [rhe, hfl]
  rw [if_pos h2]

/-- Round-to-nearest is within half a unit. -/
lemma rhe_abs_sub (x : ℚ) : |(rhe x : ℚ) - x| ≤ 1/2 := by
  have h1 : (⌊x⌋ : ℚ) ≤ x := Int.floor_le x
  have h2 : x < ⌊x⌋ + 1 := Int.lt_floor_add_one x
  simp only [rhe]
  split_ifs with a b c <;> rw [abs_le] <;> push_cast <;> constructor <;> linarith

lemma zpow_sub_div (m n : Nat) : (2:ℚ) ^ ((m : Int) - n) = (2 ^ m : ℚ) / (2 ^ n : ℚ) := by
  rw [zpow_sub₀ (by norm_num : (2:ℚ) ≠ 0), zpow_natCast, zpow_natCast]

/-- `qlog2` finds the binade: `2 ^ qlog2 q ≤ q < 2 ^ (qlog2 q + 1)`. -/
lemma qlog2_spec (q : ℚ) (hq : 0 < q) :
    (2:ℚ) ^ qlog2 q ≤ q ∧ q < 2 ^ (qlog2 q + 1) := by
  have hnum : 0 < q.num := Rat.num_pos.mpr hq
  set a := q.num.toNat with ha_def
  set b := q.den with hb_def
  have ha0 : 0 < a := by omega
  have hb0 : 0 < b := q.pos
  have hq_eq : q = (a : ℚ) / (b : ℚ) := by
    have hnum' : ((a : Int) : ℚ) = (q.num : ℚ) := by
      rw [ha_def, Int.toNat_of_nonneg (le_of_lt hnum)]
    rw [show ((a : Nat) : ℚ) = ((a : Int) : ℚ) from by push_cast; ring, hnum']
    exact (Rat.num_div_den q).symm
  set la := Nat.log2 a with hla_def
  set lb := Nat.log2 b with hlb_def
  have hA1 : 2 ^ la ≤ a := Nat.log2_self_le (by omega)
  have hA2 : a < 2 ^ (la + 1) := Nat.lt_log2_self
  have hB1 : 2 ^ lb ≤ b := Nat.log2_self_le (by omega)
  have hB2 : b < 2 ^ (lb + 1) := Nat.lt_log2_self
  have hbq : (0:ℚ) < (b : ℚ) := by exact_mod_cast hb0
  simp only [qlog2]
  rw [← ha_def, ← hb_def, ← hla_def, ← hlb_def]
  by_cases hc : a * 2 ^ lb < b * 2 ^ la
  · rw [if_pos hc]
    constructor
    · rw [hq_eq,
        show (la : Int) - lb - 1 = ((la : Int) - ((lb + 1 : Nat) : Int)) by push_cast; ring,
        zpow_sub_div la (lb + 1),
        div_le_div_iff₀ (by positivity) hbq]
      have hnat : 2 ^ la * b ≤ a * 2 ^ (lb + 1) :=
        le_trans (Nat.mul_le_mul_right b hA1) (Nat.mul_le_mul_left a (le_of_lt hB2))
      exact_mod_cast hnat
    · rw [hq_eq,
        show (la : Int) - lb - 1 + 1 = ((la : Int) - (lb : Int)) by ring,
        zpow_sub_div la lb,
        div_lt_div_iff₀ hbq (by positivity)]
      have hnat : a * 2 ^ lb < 2 ^ la * b := by
        calc a * 2 ^ lb < b * 2 ^ la := hc
          _ = 2 ^ la * b := Nat.mul_comm b _
      exact_mod_cast hnat
  · rw [if_neg hc]
    push_neg at hc
    constructor
    · rw [hq_eq, zpow_sub_div la lb, div_le_div_iff₀ (by positivity) hbq]
      have hnat : 2 ^ la * b ≤ a * 2 ^ lb := by
        calc 2 ^ la * b = b * 2 ^ la := Nat.mul_comm _ b
          _ ≤ a * 2 ^ lb := hc
      exact_mod_cast hnat
    · rw [hq_eq,
        show (la : Int) - lb + 1 = (((la + 1 : Nat) : Int) - (lb : Int)) by push_cast; ring,
        zpow_sub_div (la + 1) lb,
        div_lt_div_iff₀ hbq (by positivity)]
      have hnat : a * 2 ^ lb < 2 ^ (la + 1) * b :=
        lt_of_lt_of_le (mul_lt_mul_of_pos_right hA2 (pow_pos (by norm_num) lb))
          (Nat.mul_le_mul_left (2 ^ (la + 1)) hB1)
      exact_mod_cast hnat

/-- The binade characterises `qlog2`. -/
lemma qlog2_eq (q : ℚ) (k : Int) (h1 : (2:ℚ) ^ k ≤ q) (h2 : q < 2 ^ (k + 1)) :
    qlog2 q = k := by
  have hq : 0 < q := lt_of_lt_of_le (by positivity) h1
  obtain ⟨l1, l2⟩ := qlog2_spec q hq
  have u1 : qlog2 q < k + 1 :=
    (zpow_lt_zpow_iff_right₀ (by norm_num : (1:ℚ) < 2)).mp (lt_of_le_of_lt l1 h2)
  have u2 : k < qlog2 q + 1 :=
    (zpow_lt_zpow_iff_right₀ (by norm_num : (1:ℚ) < 2)).mp (lt_of_le_of_lt h1 l2)
  omega

lemma fl_of_pos (q : ℚ) (hq : 0 < q) : fl q = flPos q := by
  unfold fl
  rw [if_neg (ne_of_gt hq), if_neg (not_lt.mpr (le_of_lt hq))]

/-- Evaluate `flPos` from the binade and the rounded mantissa. -/
lemma flPos_eq (q : ℚ) (k m : Int) (hk1 : (2:ℚ) ^ k ≤ q) (hk2 : q < 2 ^ (k + 1))
    (hm : rhe (q * 2 ^ (52 - k)) = m) : flPos q = (m : ℚ) * 2 ^ (k - 52) := by
  unfold flPos
  rw [qlog2_eq q k hk1 hk2, hm]

/-- A value whose scaled mantissa is already an integer is representable:
rounding fixes it. -/
lemma flPos_self (q : ℚ) (k z : Int) (hk1 : (2:ℚ) ^ k ≤ q) (hk2 : q < 2 ^ (k + 1))
    (hz : q * 2 ^ (52 - k) = (z : ℚ)) : flPos q = q := by
  rw [flPos_eq q k z hk1 hk2 (by rw [hz, rhe_intCast]), ← hz, mul_assoc,
    ← zpow_add₀ (by norm_num : (2:ℚ) ≠ 0)]
  norm_num

lemma flPos_pos (q : ℚ) (hq : 0 < q) : 0 < flPos q := by
  unfold flPos
  have hspec := qlog2_spec q hq
  set k := qlog2 q
  have hx : (2:ℚ) ^ (52 : Int) ≤ q * 2 ^ (52 - k) := by
    calc (2:ℚ) ^ (52 : Int) = 2 ^ k * 2 ^ (52 - k) := by
          rw [← zpow_add₀ (by norm_num : (2:ℚ) ≠ 0)]
          norm_num
      _ ≤ q * 2 ^ (52 - k) := mul_le_mul_of_nonneg_right hspec.1 (by positivity)
  have hr : (1:ℚ) ≤ (rhe (q * 2 ^ (52 - k)) : ℚ) := by
    have habs := rhe_abs_sub (q * 2 ^ (52 - k))
    rw [abs_le] at habs
    have h52 : (1:ℚ) + 1/2 ≤ (2:ℚ) ^ (52 : Int) := by norm_num
    linarith [habs.1]
  exact mul_pos (lt_of_lt_of_le one_pos hr) (by positivity)

lemma fl_pos (q : ℚ) (hq : 0 < q) : 0 < fl q := by
  rw [fl_of_pos q hq]
  exact flPos_pos q hq

/-- Binary64 rounding has relative error at most `2⁻⁵³`. -/
lemma fl_error (q : ℚ) (hq : 0 < q) : |fl q - q| ≤ q * 2 ^ (-53 : Int) := by
  rw [fl_of_pos q hq]
  unfold flPos
  have hspec := qlog2_spec q hq
  set k := qlog2 q
  set x := q * 2 ^ (52 - k) with hx_def
  have h2pos : (0:ℚ) < 2 ^ (k - 52) := by positivity
  have hqx : x * 2 ^ (k - 52) = q := by
    rw [hx_def, mul_assoc, ← zpow_add₀ (by norm_num : (2:ℚ) ≠ 0)]
    norm_num
  calc |(rhe x : ℚ) * 2 ^ (k - 52) - q|
      = |(rhe x : ℚ) - x| * 2 ^ (k - 52) := by
        rw [← hqx, ← sub_mul, abs_mul, abs_of_pos h2pos]
    _ ≤ (1/2) * 2 ^ (k - 52) :=
        mul_le_mul_of_nonneg_right (rhe_abs_sub x) (le_of_lt h2pos)
    _ = 2 ^ (k - 53) := by
        rw [show (1:ℚ)/2 = 2 ^ (-1 : Int) by norm_num,
          ← zpow_add₀ (by norm_num : (2:ℚ) ≠ 0),
          show (-1 : Int) + (k - 52) = k - 53 by ring]
    _ = 2 ^ k * 2 ^ (-53 : Int) := by
        rw [← zpow_add₀ (by norm_num : (2:ℚ) ≠ 0),
          show k + (-53 : Int) = k - 53 by ring]
    _ ≤ q * 2 ^ (-53 : Int) := mul_le_mul_of_nonneg_right hspec.1 (by positivity)

/-- Integers up to `2⁵³` are exactly representable in binary64. -/
lemma fl_natCast (n : Nat) (hn : n ≤ 2 ^ 53) : fl (n : ℚ) = n := by
  rcases Nat.eq_zero_or_pos n with h0 | hpos
  · subst h0
    simp [fl]
  have hq : (0:ℚ) < (n : ℚ) := by exact_mod_cast hpos
  rw [fl_of_pos _ hq]
  have hspec := qlog2_spec (n : ℚ) hq
  set k := qlog2 (n : ℚ) with hk
  have hk0 : 0 ≤ k := by
    by_contra hcon
    push_neg at hcon
    have h1 : (2:ℚ) ^ (k + 1) ≤ 2 ^ (0 : Int) :=
      (zpow_le_zpow_iff_right₀ (by norm_num : (1:ℚ) < 2)).mpr (by omega)
    have h2 : (1:ℚ) ≤ (n : ℚ) := by exact_mod_cast hpos
    have := hspec.2
    norm_num at h1
    linarith
  have hk53 : k ≤ 53 := by
    by_contra hcon
    push_neg at hcon
    have h1 : (2:ℚ) ^ (54 : Int) ≤ 2 ^ k :=
      (zpow_le_zpow_iff_right₀ (by norm_num : (1:ℚ) < 2)).mpr (by omega)
    have h2 : (n : ℚ) ≤ ((2 ^ 53 : Nat) : ℚ) := by exact_mod_cast hn
    have h3 : ((2 ^ 53 : Nat) : ℚ) < (2:ℚ) ^ (54 : Int) := by push_cast; norm_num
    linarith [hspec.1]
  rcases lt_or_eq_of_le hk53 with hlt | heq
  · set m := (52 - k).toNat with hm_def
    have hmk : (52 : Int) - k = (m : Int) := by omega
    apply flPos_self _ k ((n : Int) * 2 ^ m) hspec.1 hspec.2
    rw [hmk, zpow_natCast]
    push_cast
    ring
  · have hn53 : (n : ℚ) = 2 ^ (53 : Int) := by
      have hle : (n : ℚ) ≤ 2 ^ (53 : Int) := by
        calc (n:ℚ) ≤ ((2 ^ 53 : Nat) : ℚ) := by exact_mod_cast hn
          _ = 2 ^ (53 : Int) := by push_cast; norm_num
      have hge : (2:ℚ) ^ (53 : Int) ≤ (n : ℚ) := by
        rw [← heq]
        exact hspec.1
      linarith
    apply flPos_self _ k (2 ^ 52) hspec.1 hspec.2
    rw [hn53, heq, ← zpow_add₀ (by norm_num : (2:ℚ) ≠ 0),
      show (53 : Int) + (52 - 53) = 52 by ring]
    push_cast
    norm_num

/-- Two roundings (one division, one multiplication) keep the truncated
result within one unit of the exact truncation, as long as the exact value
stays below `2⁵⁰`. -/
lemma ftrunc_fmul_fdiv (d : Nat) (x y : ℚ) (hx : 0 < x) (hy : 0 < y) (hd : 0 < d)
    (hb : (d:ℚ) * (x / y) ≤ 2 ^ 50) :
    ⌊(d:ℚ) * (x / y)⌋₊ ≤ ⌊fmul (d:ℚ) (fdiv x y)⌋₊ + 1 ∧
    ⌊fmul (d:ℚ) (fdiv x y)⌋₊ ≤ ⌊(d:ℚ) * (x / y)⌋₊ + 1 := by
  have hdq : (0:ℚ) < (d:ℚ) := by exact_mod_cast hd
  have hxy : (0:ℚ) < x / y := by positivity
  set e := (d:ℚ) * (x / y) with he_def
  have hepos : 0 < e := by positivity
  have hppos : 0 < fdiv x y := fl_pos _ hxy
  set p := fdiv x y with hp_def
  have hperr : |p - x / y| ≤ (x / y) * 2 ^ (-53 : Int) := fl_error _ hxy
  have hcerr : |fmul (d:ℚ) p - (d:ℚ) * p| ≤ ((d:ℚ) * p) * 2 ^ (-53 : Int) :=
    fl_error _ (by positivity)
  have hcpos : 0 < fmul (d:ℚ) p := fl_pos _ (by positivity)
  set c := fmul (d:ℚ) p with hc_def
  have hple : p ≤ (x / y) * (1 + 2 ^ (-53 : Int)) := by
    rw [abs_le] at hperr
    nlinarith [hperr.2]
  have hdp : (d:ℚ) * p ≤ e * (1 + 2 ^ (-53 : Int)) := by
    calc (d:ℚ) * p ≤ (d:ℚ) * ((x / y) * (1 + 2 ^ (-53 : Int))) :=
          mul_le_mul_of_nonneg_left hple (le_of_lt hdq)
      _ = e * (1 + 2 ^ (-53 : Int)) := by rw [he_def]; ring
  have ht3 : |(d:ℚ) * p - e| ≤ e * 2 ^ (-53 : Int) := by
    have hsplit : (d:ℚ) * p - e = (d:ℚ) * (p - x / y) := by rw [he_def]; ring
    rw [hsplit, abs_mul, abs_of_pos hdq]
    calc (d:ℚ) * |p - x / y| ≤ (d:ℚ) * ((x / y) * 2 ^ (-53 : Int)) :=
          mul_le_mul_of_nonneg_left hperr (le_of_lt hdq)
      _ = e * 2 ^ (-53 : Int) := by rw [he_def]; ring
  have ht1 : |c - (d:ℚ) * p| ≤ e * (1 + 2 ^ (-53 : Int)) * 2 ^ (-53 : Int) := by
    calc |c - (d:ℚ) * p| ≤ ((d:ℚ) * p) * 2 ^ (-53 : Int) := hcerr
      _ ≤ e * (1 + 2 ^ (-53 : Int)) * 2 ^ (-53 : Int) :=
          mul_le_mul_of_nonneg_right hdp (by positivity)
  have habs : |c - e| ≤ 1/2 := by
    have htri : |c - e| ≤ |c - (d:ℚ) * p| + |(d:ℚ) * p - e| := abs_sub_le c ((d:ℚ) * p) e
    have hsum : e * (1 + 2 ^ (-53 : Int)) * 2 ^ (-53 : Int) + e * 2 ^ (-53 : Int) ≤ 1/2 := by
      have hcoef : ((1:ℚ) + 2 ^ (-53 : Int)) * 2 ^ (-53 : Int) + 2 ^ (-53 : Int) ≤
          (2:ℚ) ^ (-51 : Int) := by norm_num
      calc e * (1 + 2 ^ (-53 : Int)) * 2 ^ (-53 : Int) + e * 2 ^ (-53 : Int)
          = e * (((1:ℚ) + 2 ^ (-53 : Int)) * 2 ^ (-53 : Int) + 2 ^ (-53 : Int)) := by ring
        _ ≤ (2 ^ 50 : ℚ) * (2:ℚ) ^ (-51 : Int) :=
            mul_le_mul hb hcoef (by positivity) (by norm_num)
        _ ≤ 1/2 := by norm_num
    exact le_trans (le_trans htri (add_le_add ht1 ht3)) hsum
  rw [abs_le] at habs
  constructor
  · have h1 : e < ((⌊c⌋₊ + 2 : Nat) : ℚ) := by
      have hcf : c < ⌊c⌋₊ + 1 := Nat.lt_floor_add_one c
      push_cast
      linarith [habs.1]
    have := (Nat.floor_lt (le_of_lt hepos)).mpr h1
    omega
  · have h1 : c < ((⌊e⌋₊ + 2 : Nat) : ℚ) := by
      have hef : e < ⌊e⌋₊ + 1 := Nat.lt_floor_add_one e
      push_cast
      linarith [habs.2]
    have := (Nat.floor_lt (le_of_lt hcpos)).mpr h1
    omega

lemma fl_one : fl (1:ℚ) = 1 := by
  rw [fl_of_pos _ one_pos]
  exact flPos_self _ 0 (2 ^ 52) (by norm_num) (by norm_num) (by push_cast; norm_num)

/-- `500 / 1000` is exact in binary64. -/
lemma fdiv_half : fdiv (500:ℚ) 1000 = 1/2 := by
  unfold fdiv
  rw [show (500:ℚ)/1000 = 1/2 by norm_num, fl_of_pos _ (by norm_num)]
  exact flPos_self _ (-1) (2 ^ 52) (by norm_num) (by norm_num) (by push_cast; norm_num)

/-- `333 * 0.5` is exact in binary64. -/
lemma fmul_333_half : fmul (333:ℚ) (1/2) = 333/2 := by
  unfold fmul
  rw [show (333:ℚ) * (1/2) = 333/2 by norm_num, fl_of_pos _ (by norm_num)]
  exact flPos_self _ 7 (333 * 2 ^ 44) (by norm_num) (by norm_num) (by push_cast; norm_num)

/-- `58 / 100` in binary64 rounds *down* to `5224175567749775·2⁻⁵³ < 0.58`. -/
lemma fdiv_58_100 : fdiv (58:ℚ) 100 = 5224175567749775 / 2 ^ 53 := by
  unfold fdiv
  rw [show (58:ℚ)/100 = 29/50 by norm_num, fl_of_pos _ (by norm_num)]
  rw [flPos_eq _ (-1) 5224175567749775 (by norm_num) (by norm_num)
    (rhe_eq_floor _ _ (by push_cast; norm_num) (by push_cast; norm_num))]
  norm_num

/-- `100 * fl(0.58)` in binary64 is `8162774324609023·2⁻⁴⁷ < 58`. -/
lemma fmul_100_fl58 : fmul (100:ℚ) (5224175567749775 / 2 ^ 53) =
    8162774324609023 / 2 ^ 47 := by
  unfold fmul
  rw [fl_of_pos _ (by norm_num)]
  rw [flPos_eq _ 5 8162774324609023 (by norm_num) (by norm_num)
    (rhe_eq_floor _ _ (by push_cast; norm_num) (by push_cast; norm_num))]
  norm_num

/-- `round_aspect` never exceeds a bound that is at least 1 and at least the
unrounded value. -/
lemma round_aspect_le (number : ℚ) (key : Nat → ℚ) (m : Nat) (hm : 1 ≤ m)
    (h : number ≤ (m : ℚ)) : round_aspect number key ≤ m := by
  unfold round_aspect
  have hceil : ⌈number⌉₊ ≤ m := Nat.ceil_le.mpr h
  have hfloor : ⌊number⌋₊ ≤ m := le_trans (Nat.floor_le_ceil number) hceil
  refine max_le ?_ hm
  split_ifs <;> assumption

/-- C4 counterexample: with `--image-resize-percent 58` a 100×100 image comes
out 57×57, not the 58×58 the exact formula `⌊W·p⌋` predicts: `58 / 100.0`
rounds down in binary64, and `int(100 * that)` truncates the product
`57.99999999999999…` to 57. -/
theorem percent_resize_counterexample :
    image_dims_pipeline ⟨75, adjust_image_resize_percent 58, none, none, false⟩
      (100, 100) = (57, 57) ∧
    ⌊(100 : ℚ) * ((58 : ℚ) / 100)⌋₊ = 58 ∧ (57 : Nat) ≠ 58 := by
  refine ⟨?_, by rw [Nat.floor_eq_iff (by norm_num)]; norm_num, by decide⟩
  have hadj : adjust_image_resize_percent 58 = some (fdiv ((58 : Int) : ℚ) 100) := by
    unfold adjust_image_resize_percent
    rw [if_pos (by norm_num)]
  have hcast : fdiv ((58 : Int) : ℚ) 100 = fdiv (58 : ℚ) 100 := by norm_num
  have hval : fdiv (58 : ℚ) 100 = 5224175567749775 / 2 ^ 53 := fdiv_58_100
  have hne : fdiv ((58 : Int) : ℚ) 100 ≠ 0 := by
    rw [hcast, hval]
    norm_num
  unfold image_dims_pipeline
  simp only []
  rw [hadj]
  simp only [hne, ne_eq, not_false_eq_true, if_true]
  unfold resize_image
  simp only [Nat.cast_ofNat]
  rw [hcast, hval, fmul_100_fl58]
  rw [show ⌊(8162774324609023 : ℚ) / 2 ^ 47⌋₊ = 57 from by
    rw [Nat.floor_eq_iff (by norm_num)]; norm_num]

/-- C4 amended: with a configured positive percentage `n` and no max-width
clamp, each dimension is `int(W ⊗ p̂)` where `p̂ = fl64(n / 100)` and `⊗` is
binary64 multiplication — the float64 truncation, not the exact `⌊W·n/100⌋`
(the counterexample shows them apart).  `n = 100` gives `p̂ = 1.0` exactly and
leaves dimensions at or below `2⁵³` unchanged, and each dimension stays
within one pixel of the exact `⌊W·n/100⌋` whenever `W·n/100 ≤ 2⁵⁰`. -/
theorem percent_resize_float_trunc
    (W H : Nat) (n : Int) (hn : 0 < n) (args : Args)
    (hp : args.image_resize_percent = adjust_image_resize_percent n)
    (hmw : args.image_resize_maxwidth = none) :
    image_dims_pipeline args (W, H) =
      (⌊fmul (W : ℚ) (fdiv (n : ℚ) 100)⌋₊, ⌊fmul (H : ℚ) (fdiv (n : ℚ) 100)⌋₊) ∧
    (n = 100 → W ≤ 2 ^ 53 → H ≤ 2 ^ 53 → image_dims_pipeline args (W, H) = (W, H)) ∧
    (0 < W → (W : ℚ) * ((n : ℚ) / 100) ≤ 2 ^ 50 →
      ⌊(W : ℚ) * ((n : ℚ) / 100)⌋₊ ≤ ⌊fmul (W : ℚ) (fdiv (n : ℚ) 100)⌋₊ + 1 ∧
      ⌊fmul (W : ℚ) (fdiv (n : ℚ) 100)⌋₊ ≤ ⌊(W : ℚ) * ((n : ℚ) / 100)⌋₊ + 1) := by
  have hnq : (0 : ℚ) < (n : ℚ) / 100 := by
    have : (0 : ℚ) < (n : ℚ) := by exact_mod_cast hn
    positivity
  have hadj : adjust_image_resize_percent n = some (fdiv (n : ℚ) 100) := by
    unfold adjust_image_resize_percent
    rw [if_pos hn.ne']
  have hfd : 0 < fdiv (n : ℚ) 100 := fl_pos _ hnq
  have hpipe : image_dims_pipeline args (W, H) =
      (⌊fmul (W : ℚ) (fdiv (n : ℚ) 100)⌋₊, ⌊fmul (H : ℚ) (fdiv (n : ℚ) 100)⌋₊) := by
    unfold image_dims_pipeline
    rw [hp, hadj, hmw]
    simp only [hfd.ne', ne_eq, not_false_eq_true, if_true]
    rfl
  refine ⟨hpipe, ?_, ?_⟩
  · intro h100 hW hH
    subst h100
    rw [hpipe]
    have h1 : fdiv ((100 : Int) : ℚ) 100 = 1 := by
      unfold fdiv
      rw [show ((100 : Int) : ℚ) / 100 = 1 by push_cast; norm_num]
      exact fl_one
    rw [h1]
    unfold fmul
    rw [mul_one, mul_one, fl_natCast W hW, fl_natCast H hH,
      Nat.floor_natCast, Nat.floor_natCast]
  · intro hW hb
    exact ftrunc_fmul_fdiv W (n : ℚ) 100 (by exact_mod_cast hn) (by norm_num) hW hb

/-- C4 amended witness: the 100×100 image at 58 percent, through the amended
description. -/
theorem percent_resize_float_trunc_witness :
    image_dims_pipeline ⟨75, adjust_image_resize_percent 58, none, none, false⟩
      (100, 100) =
      (⌊fmul ((100 : Nat) : ℚ) (fdiv ((58 : Int) : ℚ) 100)⌋₊,
       ⌊fmul ((100 : Nat) : ℚ) (fdiv ((58 : Int) : ℚ) 100)⌋₊) ∧
    ((58 : Int) = 100 → 100 ≤ 2 ^ 53 → 100 ≤ 2 ^ 53 →
      image_dims_pipeline ⟨75, adjust_image_resize_percent 58, none, none, false⟩
        (100, 100) = (100, 100)) ∧
    (0 < 100 → ((100 : Nat) : ℚ) * (((58 : Int) : ℚ) / 100) ≤ 2 ^ 50 →
      ⌊((100 : Nat) : ℚ) * (((58 : Int) : ℚ) / 100)⌋₊ ≤
        ⌊fmul ((100 : Nat) : ℚ) (fdiv ((58 : Int) : ℚ) 100)⌋₊ + 1 ∧
      ⌊fmul ((100 : Nat) : ℚ) (fdiv ((58 : Int) : ℚ) 100)⌋₊ ≤
        ⌊((100 : Nat) : ℚ) * (((58 : Int) : ℚ) / 100)⌋₊ + 1) :=
  percent_resize_float_trunc 100 100 58 (by decide) _ rfl rfl

/-- C5 counterexample: with max-width 500 and no percentage resize, a
1000×333 image comes out of the max-width step at 498×166 — the output width
is *not* the configured maximum, because the bounding box
`(maxwidth, int(height·maxwidth/width))` handed to `PIL.Image.thumbnail`
makes `thumbnail` recompute the width from the truncated height.  (Here the
float64 steps are exact: `500/1000` and `333·0.5` are dyadic, and the aspect
comparisons inside `thumbnail` sit far from their rounding boundaries.) -/
theorem maxwidth_counterexample :
    (1000 : Nat) > 500 ∧
    image_dims_pipeline ⟨75, none, none, some 500, false⟩ (1000, 333) = (498, 166) ∧
    (image_dims_pipeline ⟨75, none, none, some 500, false⟩ (1000, 333)).1 ≠ 500 := by
  have h3 : ⌊(166000 : ℚ) / 333⌋₊ = 498 := by
    rw [Nat.floor_eq_iff (by norm_num)]; norm_num
  have h4 : ⌈(166000 : ℚ) / 333⌉₊ = 499 := by
    rw [Nat.ceil_eq_iff (by norm_num)]; norm_num
  have hnh : ⌊fmul ((333 : Nat) : ℚ) (fdiv ((500 : Nat) : ℚ) ((1000 : Nat) : ℚ))⌋₊
      = 166 := by
    rw [show ((333 : Nat) : ℚ) = (333 : ℚ) from by norm_num,
      show ((500 : Nat) : ℚ) = (500 : ℚ) from by norm_num,
      show ((1000 : Nat) : ℚ) = (1000 : ℚ) from by norm_num,
      fdiv_half, fmul_333_half]
    rw [Nat.floor_eq_iff (by norm_num)]
    norm_num
  have happ : apply_maxwidth (1000, 333) 500 = (498, 166) := by
    simp only [apply_maxwidth]
    rw [if_pos (by norm_num), hnh]
    norm_num [pil_thumbnail_size, round_aspect, h3, h4]
    rw [abs_of_nonneg (by norm_num : (0:ℚ) ≤ 1/333),
      abs_of_nonneg (by norm_num : (0:ℚ) ≤ 167/55278)]
    norm_num
  have hpipe : image_dims_pipeline ⟨75, none, none, some 500, false⟩ (1000, 333) =
      (498, 166) := by
    unfold image_dims_pipeline
    simpa using happ
  exact ⟨by norm_num, hpipe, by rw [hpipe]; decide⟩

/-- C5 amended: entering the max-width step, a width at most the configured
maximum leaves the image unchanged, and the step never enlarges: the output
width never exceeds the maximum and the output height never exceeds the
original.  The bounding-box height the code hands Pillow is the float64
truncation `y = int(H ⊗ fl64(max/W))`; whenever `y` does not overshoot the
exact ratio (`y ≤ H·max/W`) the output height is exactly `y`, and `y` stays
within one pixel of the exact `⌊H·max/W⌋` whenever `H·max/W ≤ 2⁵⁰` — but
`y` is not always `⌊H·max/W⌋` itself: at 100×100 with max-width 58 the
program computes 57, not 58, by the same float64 effect as the percentage
resize. -/
theorem maxwidth_step_amended (W H mw : Nat) (hH : 0 < H) (hmw : 0 < mw) :
    (W ≤ mw → apply_maxwidth (W, H) mw = (W, H)) ∧
    (mw < W → 1 ≤ ⌊fmul (H : ℚ) (fdiv (mw : ℚ) (W : ℚ))⌋₊ →
      (apply_maxwidth (W, H) mw).1 ≤ mw ∧
      (apply_maxwidth (W, H) mw).2 ≤ H) ∧
    (mw < W → 1 ≤ ⌊fmul (H : ℚ) (fdiv (mw : ℚ) (W : ℚ))⌋₊ →
      (⌊fmul (H : ℚ) (fdiv (mw : ℚ) (W : ℚ))⌋₊ : ℚ) ≤ (H : ℚ) * mw / W →
      (apply_maxwidth (W, H) mw).2 = ⌊fmul (H : ℚ) (fdiv (mw : ℚ) (W : ℚ))⌋₊) ∧
    (mw < W → (H : ℚ) * ((mw : ℚ) / W) ≤ 2 ^ 50 →
      ⌊(H : ℚ) * ((mw : ℚ) / W)⌋₊ ≤ ⌊fmul (H : ℚ) (fdiv (mw : ℚ) (W : ℚ))⌋₊ + 1 ∧
      ⌊fmul (H : ℚ) (fdiv (mw : ℚ) (W : ℚ))⌋₊ ≤ ⌊(H : ℚ) * ((mw : ℚ) / W)⌋₊ + 1) := by
  set y := ⌊fmul (H : ℚ) (fdiv (mw : ℚ) (W : ℚ))⌋₊ with hy_def
  refine ⟨?_, ?_, ?_, ?_⟩
  · intro hle
    unfold apply_maxwidth
    rw [if_neg (by omega)]
  · intro hlt hy1
    have hHq : (0 : ℚ) < (H : ℚ) := by exact_mod_cast hH
    have hWq : (0 : ℚ) < (W : ℚ) := by exact_mod_cast (show 0 < W by omega)
    have hyq : (0 : ℚ) < (y : ℚ) := by exact_mod_cast hy1
    have happ : apply_maxwidth (W, H) mw = pil_thumbnail_size W H mw y := by
      simp only [apply_maxwidth]
      rw [if_pos hlt]
    rw [happ]
    simp only [pil_thumbnail_size]
    rw [if_neg (fun hcontra => absurd hcontra.1 (by omega))]
    by_cases hcond : ((mw : ℚ)) / (y : ℚ) ≥ (W : ℚ) / (H : ℚ)
    · rw [if_pos hcond]
      rw [ge_iff_le, div_le_div_iff₀ hHq hyq] at hcond
      constructor
      · show round_aspect ((y : ℚ) * ((W : ℚ) / (H : ℚ)))
            (fun n => |(W : ℚ) / (H : ℚ) - (n : ℚ) / (y : ℚ)|) ≤ mw
        apply round_aspect_le _ _ mw hmw
        rw [mul_div_assoc', div_le_iff₀ hHq]
        calc (y:ℚ) * W = W * y := mul_comm _ _
          _ ≤ mw * H := hcond
      · show y ≤ H
        have hlt2 : (W:ℚ) * y < W * H := by
          calc (W:ℚ) * y ≤ mw * H := hcond
            _ < W * H := by
                apply mul_lt_mul_of_pos_right _ hHq
                exact_mod_cast hlt
        have hyH : (y : ℚ) < (H : ℚ) := lt_of_mul_lt_mul_left hlt2 (le_of_lt hWq)
        have : y < H := by exact_mod_cast hyH
        omega
    · rw [if_neg hcond]
      constructor
      · show mw ≤ mw
        exact le_refl mw
      · show round_aspect ((mw : ℚ) / ((W : ℚ) / (H : ℚ)))
            (fun n => if n = 0 then 0 else |(W : ℚ) / (H : ℚ) - (mw : ℚ) / (n : ℚ)|) ≤ H
        apply round_aspect_le _ _ H hH
        rw [div_div_eq_mul_div, div_le_iff₀ hWq]
        calc (mw:ℚ) * H ≤ W * H := by
              apply mul_le_mul_of_nonneg_right _ (le_of_lt hHq)
              exact_mod_cast le_of_lt hlt
          _ = H * W := mul_comm _ _
  · intro hlt hy1 hyle
    have hHq : (0 : ℚ) < (H : ℚ) := by exact_mod_cast hH
    have hWq : (0 : ℚ) < (W : ℚ) := by exact_mod_cast (show 0 < W by omega)
    have hyq : (0 : ℚ) < (y : ℚ) := by exact_mod_cast hy1
    have happ : apply_maxwidth (W, H) mw = pil_thumbnail_size W H mw y := by
      simp only [apply_maxwidth]
      rw [if_pos hlt]
    have hmul : (y : ℚ) * W ≤ (H : ℚ) * mw := (le_div_iff₀ hWq).mp hyle
    have hcond : ((mw : ℚ)) / (y : ℚ) ≥ (W : ℚ) / (H : ℚ) := by
      rw [ge_iff_le, div_le_div_iff₀ hHq hyq]
      calc (W : ℚ) * y = y * W := mul_comm _ _
        _ ≤ (H:ℚ) * mw := hmul
        _ = mw * H := mul_comm _ _
    rw [happ]
    simp only [pil_thumbnail_size]
    rw [if_neg (fun hcontra => absurd hcontra.1 (by omega)), if_pos hcond]
  · intro hlt hb
    exact ftrunc_fmul_fdiv H (mw : ℚ) (W : ℚ) (by exact_mod_cast hmw)
      (by exact_mod_cast (show 0 < W by omega)) hH hb

/-- The float64 bounding-box height for a 1000×333 image clamped to width
500: the ratio `0.5` and the product `166.5` are exact, so it is 166. -/
lemma maxwidth_newheight_1000_333 :
    ⌊fmul ((333 : Nat) : ℚ) (fdiv ((500 : Nat) : ℚ) ((1000 : Nat) : ℚ))⌋₊ = 166 := by
  rw [show ((333 : Nat) : ℚ) = (333 : ℚ) from by norm_num,
    show ((500 : Nat) : ℚ) = (500 : ℚ) from by norm_num,
    show ((1000 : Nat) : ℚ) = (1000 : ℚ) from by norm_num,
    fdiv_half, fmul_333_half]
  rw [Nat.floor_eq_iff (by norm_num)]
  norm_num

/-- C5 amended witness: a 400-wide image is untouched by max-width 500; the
1000×333 image's clamped width stays within the maximum and its height is
exactly the float64 bounding-box height. -/
theorem maxwidth_step_amended_witness :
    apply_maxwidth (400, 300) 500 = (400, 300) ∧
    (apply_maxwidth (1000, 333) 500).1 ≤ 500 ∧
    (apply_maxwidth (1000, 333) 500).2 =
      ⌊fmul ((333 : Nat) : ℚ) (fdiv ((500 : Nat) : ℚ) ((1000 : Nat) : ℚ))⌋₊ :=
  ⟨(maxwidth_step_amended 400 300 500 (by decide) (by decide)).1 (by decide),
   ((maxwidth_step_amended 1000 333 500 (by decide) (by decide)).2.1 (by decide)
     (by rw [maxwidth_newheight_1000_333]; norm_num)).1,
   (maxwidth_step_amended 1000 333 500 (by decide) (by decide)).2.2.1 (by decide)
     (by rw [maxwidth_newheight_1000_333]; norm_num)
     (by rw [maxwidth_newheight_1000_333]; push_cast; norm_num)⟩

/-- `str.rfind` never returns less than `-1`. -/
lemma neg_one_le_rfind (cs : List Char) (c : Char) : -1 ≤ rfind cs c := by
  unfold rfind
  cases h : (cs.reverse).findIdx? (fun x => x = c) with
  | none => exact le_refl _
  | some i =>
    show -1 ≤ (cs.length : Int) - 1 - i
    have hi : i < cs.reverse.length := (List.findIdx?_eq_some_iff_findIdx_eq.mp h).1
    rw [List.length_reverse] at hi
    omega

/-- C8 counterexample: `os.path.splitext` does not take "the text after the
last dot": a leading-dot filename like `.gitignore` yields the empty file
type, and a dot occurring only in a directory component yields the empty
file type, while the claim's reading would give `gitignore` resp. `b/c`. -/
theorem filetype_counterexample :
    filetype ".gitignore" = "" ∧ claimed_filetype ".gitignore" = "gitignore" ∧
    filetype ".gitignore" ≠ claimed_filetype ".gitignore" ∧
    filetype "a.b/c" = "" ∧ claimed_filetype "a.b/c" = "b/c" := by decide

/-- C8 amended: the grouping key is the `os.path.splitext` extension without
its dot — the text after the last `.` *provided* that dot comes after the
last `/` and some earlier character of the final path component is not a dot;
in every other case (no dot, dot only in a directory component, leading-dot
hidden files) the key is the empty string.  Case is preserved as-is. -/
theorem filetype_amended (p : String) :
    ((rfind p.toList '/' < rfind p.toList '.' ∧
      ((p.toList.drop (rfind p.toList '/' + 1).toNat).take
        (rfind p.toList '.' - (rfind p.toList '/' + 1)).toNat).any
        (fun c => c ≠ '.') = true) →
      filetype p = claimed_filetype p) ∧
    (¬ (rfind p.toList '/' < rfind p.toList '.' ∧
      ((p.toList.drop (rfind p.toList '/' + 1).toNat).take
        (rfind p.toList '.' - (rfind p.toList '/' + 1)).toNat).any
        (fun c => c ≠ '.') = true) →
      filetype p = "") := by
  constructor
  · rintro ⟨h1, h2⟩
    have hd : 0 ≤ rfind p.toList '.' := by
      have := neg_one_le_rfind p.toList '/'
      omega
    simp only [filetype, claimed_filetype, splitext_ext_chars]
    rw [if_pos h1, if_pos h2, if_pos hd]
    rw [List.drop_drop]
    congr 2
    omega
  · intro hn
    simp only [filetype, splitext_ext_chars]
    by_cases h1 : rfind p.toList '/' < rfind p.toList '.'
    · have h2 : ¬ (((p.toList.drop (rfind p.toList '/' + 1).toNat).take
          (rfind p.toList '.' - (rfind p.toList '/' + 1)).toNat).any
          (fun c => c ≠ '.') = true) := fun h2 => hn ⟨h1, h2⟩
      rw [if_pos h1, if_neg h2]
      rfl
    · rw [if_neg h1]
      rfl

/-- C8 amended witness: a regular extension agrees with the
after-the-last-dot reading; a hidden file gets the empty key. -/
theorem filetype_amended_witness :
    filetype "a.jpg" = claimed_filetype "a.jpg" ∧ filetype ".gitignore" = "" :=
  ⟨(filetype_amended "a.jpg").1 (by decide),
   (filetype_amended ".gitignore").2 (by decide)⟩

/-- C6 counterexample: a group whose input sizes sum to zero (one `.css`
record stored with compressed size 0, output size 4) produces the float
division value `+inf`, rendered as the cell `inf%` — not the claim's defined
sentinel such as `0` or `N/A`. -/
theorem zero_input_group_counterexample :
    table_percent_cells [⟨"style.css", 0, 4⟩] = ["inf%"] ∧
    (totals_for [⟨"style.css", 0, 4⟩] "css").percent_diff = PFloat.posInf ∧
    PFloat.posInf ≠ PFloat.finite 0 ∧ PFloat.posInf ≠ PFloat.nan := by
  refine ⟨by decide, by decide, by decide, by decide⟩

/-- C6 amended: the aggregation never raises a division fault — float64
division by zero produces `+inf` (positive difference) or `NaN` (zero
difference; a negative difference cannot occur with a zero input sum since
sizes are non-negative) — and the group's row still appears in the rendered
table, its percent being that special float value rather than a `0`/`N/A`
sentinel. -/
theorem zero_input_group_amended (records : List SizeRecord) (ft : String)
    (hft : ft ∈ group_keys records)
    (hzero : (totals_for records ft).in_size = 0) :
    totals_for records ft ∈ totals_per_filetype_sorted records ∧
    (totals_for records ft).percent_diff =
      (if 0 < (totals_for records ft).out_size then PFloat.posInf else PFloat.nan) := by
  constructor
  · have hperm : (totals_per_filetype_sorted records).Perm (totals_per_filetype records) :=
      List.perm_insertionSort _ _
    exact hperm.mem_iff.mpr (List.mem_map_of_mem _ hft)
  · simp only [totals_for] at hzero ⊢
    rw [hzero]
    simp only [percent_diff_val, if_pos rfl]
    split_ifs <;> first | rfl | omega

/-- C6 amended witness: the zero-input css group of the counterexample
renders through the amended description. -/
theorem zero_input_group_amended_witness :
    totals_for [⟨"style.css", 0, 4⟩] "css" ∈
      totals_per_filetype_sorted [⟨"style.css", 0, 4⟩] ∧
    (totals_for [⟨"style.css", 0, 4⟩] "css").percent_diff =
      (if 0 < (totals_for [⟨"style.css", 0, 4⟩] "css").out_size then PFloat.posInf
       else PFloat.nan) :=
  zero_input_group_amended [⟨"style.css", 0, 4⟩] "css" (by decide) (by decide)

/-- Summing a map that adds two functions splits into two sums. -/
lemma sum_map_add_distrib {α M : Type} [AddCommMonoid M] (l : List α) (f g : α → M) :
    (l.map (fun x => f x + g x)).sum = (l.map f).sum + (l.map g).sum := by
  induction l with
  | nil => simp
  | cons a t ih =>
    simp only [List.map_cons, List.sum_cons, ih]
    abel

/-- Summing a map that subtracts two `Int`-valued functions splits into a
difference of sums. -/
lemma sum_map_sub_distrib {α : Type} (l : List α) (f g : α → Int) :
    (l.map (fun x => f x - g x)).sum = (l.map f).sum - (l.map g).sum := by
  induction l with
  | nil => simp
  | cons a t ih =>
    simp only [List.map_cons, List.sum_cons, ih]
    ring

/-- Over a duplicate-free key list containing `a`, summing the indicator of
`a` yields the single value. -/
lemma sum_map_ite_single {M : Type} [AddCommMonoid M] (keys : List String)
    (hnd : keys.Nodup) (a : String) (ha : a ∈ keys) (v : M) :
    (keys.map (fun ft => if a = ft then v else 0)).sum = v := by
  induction keys with
  | nil => cases ha
  | cons k ks ih =>
    rw [List.map_cons, List.sum_cons]
    rcases List.mem_cons.mp ha with h | h
    · subst h
      rw [if_pos rfl]
      have hnot : a ∉ ks := (List.nodup_cons.mp hnd).1
      have hz : (ks.map (fun ft => if a = ft then v else 0)).sum = 0 := by
        apply List.sum_eq_zero
        intro x hx
        obtain ⟨ft, hft, hfx⟩ := List.mem_map.mp hx
        rw [← hfx, if_neg (fun he => hnot (by rw [he]; exact hft))]
      rw [hz, add_zero]
    · have hk : a ≠ k := fun he => (List.nodup_cons.mp hnd).1 (he ▸ h)
      rw [if_neg hk, zero_add]
      exact ih (List.nodup_cons.mp hnd).2 h

/-- Grouping partitions the records: summing any `M`-valued field per group
and then over the (duplicate-free, covering) group keys recovers the sum over
all records. -/
lemma sum_filter_groups {M : Type} [AddCommMonoid M] (records : List SizeRecord)
    (keys : List String) (hnd : keys.Nodup)
    (hmem : ∀ r ∈ records, filetype r.filename ∈ keys) (f : SizeRecord → M) :
    (keys.map (fun ft =>
      ((records.filter (fun r => filetype r.filename = ft)).map f).sum)).sum
      = (records.map f).sum := by
  induction records with
  | nil => simp
  | cons r rest ih =>
    have hmem' : ∀ x ∈ rest, filetype x.filename ∈ keys :=
      fun x hx => hmem x (List.mem_cons_of_mem r hx)
    have hstep : (keys.map (fun ft =>
        (((r :: rest).filter (fun x => filetype x.filename = ft)).map f).sum))
        = keys.map (fun ft => (if filetype r.filename = ft then f r else 0) +
            ((rest.filter (fun x => filetype x.filename = ft)).map f).sum) := by
      apply List.map_congr_left
      intro ft _
      by_cases h : filetype r.filename = ft
      · rw [List.filter_cons_of_pos (by simp [h]), List.map_cons, List.sum_cons,
          if_pos h]
      · rw [List.filter_cons_of_neg (by simp [h]), if_neg h, zero_add]
    rw [hstep, sum_map_add_distrib,
      sum_map_ite_single keys hnd _ (hmem r (List.mem_cons_self r rest)),
      ih hmem', List.map_cons, List.sum_cons]

/-- The group keys carry no duplicates. -/
lemma group_keys_nodup (records : List SizeRecord) : (group_keys records).Nodup := by
  unfold group_keys
  exact ((List.perm_insertionSort _ _).nodup_iff).mpr (List.nodup_dedup _)

/-- Every record's file type occurs among the group keys. -/
lemma mem_group_keys (records : List SizeRecord) (r : SizeRecord)
    (hr : r ∈ records) : filetype r.filename ∈ group_keys records := by
  unfold group_keys
  refine ((List.perm_insertionSort _ _).mem_iff).mpr ?_
  rw [List.mem_dedup]
  exact List.mem_map_of_mem _ hr

/-- `"%.2f"` of an exactly representable value: when `q·100` is the integer
`n`, the rounding returns `n`. -/
lemma roundHalfEven2_int (q : ℚ) (n : Int) (h : q * 100 = (n : ℚ)) :
    roundHalfEven2 q = n := by
  simp only [roundHalfEven2, h, Int.floor_intCast]
  rw [if_pos (by norm_num)]

/-- `"%.2f"` rounding up: when `q·100` lies strictly between `n + 1/2` and
`n + 1`, the rounding returns `n + 1`. -/
lemma roundHalfEven2_up (q : ℚ) (n : Int) (h1 : (n : ℚ) ≤ q * 100)
    (h2 : 1/2 < q * 100 - n) (h3 : q * 100 < (n : ℚ) + 1) :
    roundHalfEven2 q = n + 1 := by
  have hfl : ⌊q * 100⌋ = n := by
    rw [Int.floor_eq_iff]
    exact ⟨h1, h3⟩
  simp only [roundHalfEven2, hfl]
  rw [if_neg (by linarith), if_pos h2]

/-- With a non-zero denominator the pandas division produces the finite exact
quotient. -/
lemma percent_diff_val_finite (a : Nat) (b : Int) (ha : a ≠ 0) :
    percent_diff_val a b = PFloat.finite ((b : ℚ) / (a : ℚ) * 100) := by
  simp only [percent_diff_val]
  rw [if_neg ha]

/-- The grand-total percentage is recomputed from the record sums, not from
the per-group percentages: the summed row columns coincide with the summed
record columns because grouping partitions the records. -/
lemma total_from_records (records : List SizeRecord) :
    total_percentage records =
      percent_diff_val ((records.map (fun r => r.in_size)).sum)
        (((records.map (fun r => (r.out_size : Int))).sum) -
         ((records.map (fun r => (r.in_size : Int))).sum)) := by
  simp only [total_percentage]
  have hperm : (totals_per_filetype_sorted records).Perm (totals_per_filetype records) :=
    List.perm_insertionSort _ _
  have hin : ((totals_per_filetype_sorted records).map (fun r => r.in_size)).sum
      = (records.map (fun r => r.in_size)).sum := by
    rw [(hperm.map _).sum_eq]
    unfold totals_per_filetype
    rw [List.map_map]
    exact sum_filter_groups records (group_keys records) (group_keys_nodup records)
      (fun r hr => mem_group_keys records r hr) (fun r => r.in_size)
  have hdiff : ((totals_per_filetype_sorted records).map (fun r => r.size_diff)).sum
      = ((records.map (fun r => (r.out_size : Int))).sum) -
        ((records.map (fun r => (r.in_size : Int))).sum) := by
    rw [(hperm.map _).sum_eq]
    unfold totals_per_filetype
    rw [List.map_map]
    have h1 : ((group_keys records).map ((fun r => r.size_diff) ∘ totals_for records))
        = (group_keys records).map (fun ft =>
            (((records.filter (fun r => filetype r.filename = ft)).map
              (fun r => (r.out_size : Int))).sum)
            - (((records.filter (fun r => filetype r.filename = ft)).map
              (fun r => (r.in_size : Int))).sum)) := by
      apply List.map_congr_left
      intro ft _
      show ((((records.filter (fun r => filetype r.filename = ft)).map
          (fun r => r.out_size)).sum : Nat) : Int) -
        ((((records.filter (fun r => filetype r.filename = ft)).map
          (fun r => r.in_size)).sum : Nat) : Int) = _
      rw [Nat.cast_list_sum, Nat.cast_list_sum, List.map_map, List.map_map]
      rfl
    rw [h1, sum_map_sub_distrib,
      sum_filter_groups records (group_keys records) (group_keys_nodup records)
        (fun r hr => mem_group_keys records r hr) (fun r => (r.out_size : Int)),
      sum_filter_groups records (group_keys records) (group_keys_nodup records)
        (fun r hr => mem_group_keys records r hr) (fun r => (r.in_size : Int))]
  rw [hin, hdiff]

/-- C7: each rendered group's percent is `(sum(out) − sum(in)) / sum(in) ×
100`; the grand total is recomputed from the combined sums over all records
(not from the per-group percentages); on the synthetic pair of groups
(in=1000, out=800) and (in=500, out=500) the table shows `-20.00%` and
`0.00%` with grand total `-13.33%`. -/
theorem percent_per_group_and_total :
    (∀ records ft, (totals_for records ft).in_size ≠ 0 →
      (totals_for records ft).percent_diff =
        PFloat.finite ((((totals_for records ft).out_size : ℚ) -
          ((totals_for records ft).in_size : ℚ)) /
          ((totals_for records ft).in_size : ℚ) * 100)) ∧
    (∀ records, total_percentage records =
      percent_diff_val ((records.map (fun r => r.in_size)).sum)
        (((records.map (fun r => (r.out_size : Int))).sum) -
         ((records.map (fun r => (r.in_size : Int))).sum))) ∧
    table_percent_cells [⟨"a.jpg", 1000, 800⟩, ⟨"b.css", 500, 500⟩] =
      ["-20.00%", "0.00%"] ∧
    formatted_total_percentage [⟨"a.jpg", 1000, 800⟩, ⟨"b.css", 500, 500⟩] =
      "-13.33%" := by
  refine ⟨?_, fun records => total_from_records records, ?_, ?_⟩
  · intro records ft hnz
    simp only [totals_for] at hnz ⊢
    rw [percent_diff_val_finite _ _ hnz]
    simp only [Int.cast_sub, Int.cast_natCast]
  all_goals {
    have hkeys : group_keys [⟨"a.jpg", 1000, 800⟩, ⟨"b.css", 500, 500⟩] =
        ["css", "jpg"] := by decide
    have hpv0 : percent_diff_val 500 0 = PFloat.finite 0 := by
      rw [percent_diff_val_finite 500 0 (by norm_num)]
      norm_num
    have hpv : percent_diff_val 1000 (-200) = PFloat.finite (-20) := by
      rw [percent_diff_val_finite 1000 (-200) (by norm_num)]
      norm_num
    have hcss : totals_for [⟨"a.jpg", 1000, 800⟩, ⟨"b.css", 500, 500⟩] "css" =
        ⟨"css", 500, 500, 0, PFloat.finite 0⟩ := by
      rw [show totals_for [⟨"a.jpg", 1000, 800⟩, ⟨"b.css", 500, 500⟩] "css" =
        ⟨"css", 500, 500, 0, percent_diff_val 500 0⟩ from rfl, hpv0]
    have hjpg : totals_for [⟨"a.jpg", 1000, 800⟩, ⟨"b.css", 500, 500⟩] "jpg" =
        ⟨"jpg", 1000, 800, -200, PFloat.finite (-20)⟩ := by
      rw [show totals_for [⟨"a.jpg", 1000, 800⟩, ⟨"b.css", 500, 500⟩] "jpg" =
        ⟨"jpg", 1000, 800, -200, percent_diff_val 1000 (-200)⟩ from rfl, hpv]
    have htpf : totals_per_filetype [⟨"a.jpg", 1000, 800⟩, ⟨"b.css", 500, 500⟩] =
        [⟨"css", 500, 500, 0, PFloat.finite 0⟩,
         ⟨"jpg", 1000, 800, -200, PFloat.finite (-20)⟩] := by
      unfold totals_per_filetype
      rw [hkeys, List.map_cons, List.map_cons, List.map_nil, hcss, hjpg]
    have hle : pfloat_le (PFloat.finite 0) (PFloat.finite (-20)) = false := by
      simp only [pfloat_le]
      exact decide_eq_false (by norm_num)
    have hsorted : totals_per_filetype_sorted [⟨"a.jpg", 1000, 800⟩, ⟨"b.css", 500, 500⟩] =
        [⟨"jpg", 1000, 800, -200, PFloat.finite (-20)⟩,
         ⟨"css", 500, 500, 0, PFloat.finite 0⟩] := by
      unfold totals_per_filetype_sorted
      rw [htpf]
      simp only [List.insertionSort, List.orderedInsert]
      rw [if_neg (by simp [hle])]
    have hr20 : render_percent (PFloat.finite (-20)) = "-20.00%" := by
      simp only [render_percent, formatFixed2]
      rw [roundHalfEven2_int (-20) (-2000) (by push_cast; norm_num)]
      decide
    have hr0 : render_percent (PFloat.finite 0) = "0.00%" := by
      simp only [render_percent, formatFixed2]
      rw [roundHalfEven2_int 0 0 (by push_cast; norm_num)]
      decide
    first
    | (show table_percent_cells _ = _
       unfold table_percent_cells
       rw [hsorted, List.map_cons, List.map_cons, List.map_nil]
       simp only []
       rw [hr20, hr0])
    | (show formatted_total_percentage _ = _
       unfold formatted_total_percentage
       have ht1 : total_percentage [⟨"a.jpg", 1000, 800⟩, ⟨"b.css", 500, 500⟩] =
           percent_diff_val 1500 (-200) := by
         unfold total_percentage
         rw [hsorted]
         rfl
       have ht2 : percent_diff_val 1500 (-200) =
           PFloat.finite (((-200 : Int) : ℚ) / ((1500 : Nat) : ℚ) * 100) :=
         percent_diff_val_finite 1500 (-200) (by norm_num)
       rw [ht1, ht2]
       simp only [render_percent, formatFixed2]
       rw [show roundHalfEven2 (((-200 : Int) : ℚ) / ((1500 : Nat) : ℚ) * 100) =
           (-1334) + 1 from roundHalfEven2_up _ (-1334) (by push_cast; norm_num)
           (by push_cast; norm_num) (by push_cast; norm_num)]
       decide)
  }

/-- C7 witness: the per-group formula applied to a concrete one-record
group. -/
theorem percent_per_group_and_total_witness :
    (totals_for [⟨"a.jpg", 1000, 800⟩] "jpg").percent_diff =
      PFloat.finite ((((totals_for [⟨"a.jpg", 1000, 800⟩] "jpg").out_size : ℚ) -
        ((totals_for [⟨"a.jpg", 1000, 800⟩] "jpg").in_size : ℚ)) /
        ((totals_for [⟨"a.jpg", 1000, 800⟩] "jpg").in_size : ℚ) * 100) :=
  percent_per_group_and_total.1 [⟨"a.jpg", 1000, 800⟩] "jpg" (by decide)

end EpubShrink
